import Mathlib

/-!
# Verification of the llama-cpp-rs generation core

Shallow embedding of the generation loop, token codec and end-of-generation
detection of the repository, translated from
`src/llama-cpp-2/src/model.rs` and `src/llama-cpp-2/examples/simple.rs`.

The native engine (`llama_cpp_sys_2`) is an opaque collaborator: its
operations (`llama_token_is_eog`, `token_to_bytes_with_size`, `decode`,
the sampler) appear as explicit function parameters of the embedded code.
The process-wide `static mut LAST_TOKEN` cell inside
`LlamaModel::is_eog_token` is threaded as explicit state of type
`Option Token` shared by every model instance.
-/

namespace LlamaSpec

/-- Token identifiers: `LlamaToken` wraps an `i32`; an opaque signed integer. -/
abbrev Token := Int

/-- The model data consulted by `is_eog_token` and `token_to_bytes`:
`token_eos` embeds `llama_token_eos(vocab)` and `engine_is_eog` embeds the
engine classifier `llama_token_is_eog(vocab, t)`. -/
structure ModelCfg where
  token_eos : Token
  engine_is_eog : Token → Bool

/-- Embedding of `LlamaModel::is_eog_token` (model.rs lines 136-144).

```text
static mut LAST_TOKEN: Option<LlamaToken> = None;
let is_repeat = LAST_TOKEN == Some(token);
LAST_TOKEN = Some(token);
is_repeat || token == self.token_eos() || llama_token_is_eog(vocab, token)
```

`last` is the value of the process-wide `LAST_TOKEN` static before the call;
the second component of the result is its value after the call. -/
def is_eog_token (m : ModelCfg) (t : Token) (last : Option Token) :
    Bool × Option Token :=
  let is_repeat := last == some t
  (is_repeat || t == m.token_eos || m.engine_is_eog t, some t)

/-- The cases of `TokenToStringError` distinguished by `token_to_bytes`:
the buffer-too-small variant carries the engine's raw `c_int` hint; every
other variant (unknown token, UTF-8, ...) is opaque to the retry logic. -/
inductive TokenToStringError where
  | insufficientBufferSpace (i : Int)
  | otherError
deriving DecidableEq, Repr

/-- Outcome of `token_to_bytes`: bytes on success, an error propagated to the
caller, or a Rust panic (the `.expect` on the failed `try_into`). -/
inductive TbResult where
  | ok (bytes : List Nat)
  | err (e : TokenToStringError)
  | panicked
deriving DecidableEq, Repr

/-- `i32::MIN`. -/
def i32min : Int := -(2 ^ 31)

/-- Release-mode wrapping negation of an `i32` value (`-i` in Rust wraps at
the 32-bit boundary; `-(i32::MIN)` wraps back to `i32::MIN`). -/
def wrapNeg32 (i : Int) : Int := (-i + 2 ^ 31) % 2 ^ 32 - 2 ^ 31

/-- The buffer-retry body of `LlamaModel::token_to_bytes`
(model.rs lines 187-195):

```text
match self.token_to_bytes_with_size(token, 8, special, None) {
    Err(TokenToStringError::InsufficientBufferSpace(i)) =>
        self.token_to_bytes_with_size(token,
            (-i).try_into().expect("Error buffer size is positive"),
            special, None),
    x => x,
}
```

`attempt t n` models `token_to_bytes_with_size(t, n, special, None)` of the
opaque engine. `try_into::<usize>` succeeds exactly when the wrapped
negation is nonnegative; otherwise the `expect` panics. -/
def token_to_bytes_attempts
    (attempt : Token → Nat → Except TokenToStringError (List Nat))
    (t : Token) : TbResult :=
  match attempt t 8 with
  | Except.error (TokenToStringError.insufficientBufferSpace i) =>
      if wrapNeg32 i < 0 then TbResult.panicked
      else
        match attempt t (wrapNeg32 i).toNat with
        | Except.ok bs => TbResult.ok bs
        | Except.error e => TbResult.err e
  | Except.ok bs => TbResult.ok bs
  | Except.error e => TbResult.err e

/-- Embedding of `LlamaModel::token_to_bytes` (model.rs lines 177-196).

```text
if token == self.token_eos() && self.is_eog_token(token) {
    return Ok(b"\n".to_vec());
}
match self.token_to_bytes_with_size(token, 8, special, None) { ... }
```

Rust `&&` short-circuits, so `is_eog_token` runs (and mutates the shared
`LAST_TOKEN` state) only when `token == token_eos`. The second component is
the shared detector state after the call. -/
def token_to_bytes (m : ModelCfg)
    (attempt : Token → Nat → Except TokenToStringError (List Nat))
    (t : Token) (last : Option Token) : TbResult × Option Token :=
  let eosCheck : Bool × Option Token :=
    if t == m.token_eos then is_eog_token m t last else (false, last)
  if eosCheck.1 then (TbResult.ok [10], eosCheck.2)
  else (token_to_bytes_attempts attempt t, eosCheck.2)

/-! ## Helper lemmas about `token_to_bytes` -/

/-- On a token other than the EOS token the `&&` guard short-circuits:
`is_eog_token` is not called, the shared state is untouched, and the literal
conversion path runs. -/
theorem token_to_bytes_of_ne (m : ModelCfg)
    (attempt : Token → Nat → Except TokenToStringError (List Nat))
    (t : Token) (last : Option Token) (hne : t ≠ m.token_eos) :
    token_to_bytes m attempt t last =
      (token_to_bytes_attempts attempt t, last) := by
  have hbeq : (t == m.token_eos) = false := by simp [hne]
  simp [token_to_bytes, hbeq]

/-- For a strictly negative hint above `i32::MIN`, the Rust negation does not
wrap and yields exactly the magnitude of the hint. -/
theorem wrapNeg32_of_neg (i : Int) (h1 : i32min < i) (h2 : i ≤ 0) :
    wrapNeg32 i = -i := by
  unfold wrapNeg32
  unfold i32min at h1
  have hlo : (0 : Int) ≤ -i + 2 ^ 31 := by omega
  have hhi : -i + 2 ^ 31 < 2 ^ 32 := by omega
  rw [Int.emod_eq_of_lt hlo hhi]
  omega

/-! ## Claim C1 : repeat detection in the detector -/

/-- C1 counterexample: the claim says the detector returns stop=false on the
first two calls with the same fresh non-EOS non-engine-EOG token and true
only on the 3rd. On the code, the 2nd consecutive call already returns true:
with `token_eos = 2`, no engine EOG, token `5`, a fresh state gives `false`
then `true` on the second call. -/
theorem c1_counterexample :
    (is_eog_token ⟨2, fun _ => false⟩ 5 none).1 = false ∧
    (is_eog_token ⟨2, fun _ => false⟩ 5
      (is_eog_token ⟨2, fun _ => false⟩ 5 none).2).1 = true := by
  constructor <;> rfl

/-- C1 (amended): for a fresh detector state and a token `t` that is neither
the model EOS token nor engine-classified end-of-generation, the detector
returns false on the 1st call and true on the 2nd and 3rd consecutive calls
with `t` — the repeat signal fires as soon as the token equals the previous
one; there is no count-to-3 threshold inside the detector. A subsequent call
with a distinct token `u` (also non-EOS, non-engine-EOG) returns false again:
the remembered last token is simply overwritten. -/
theorem c1_repeat_detection (m : ModelCfg) (t u : Token)
    (ht1 : t ≠ m.token_eos) (ht2 : m.engine_is_eog t = false)
    (hu1 : u ≠ m.token_eos) (hu2 : m.engine_is_eog u = false)
    (hut : u ≠ t) :
    (is_eog_token m t none).1 = false ∧
    (is_eog_token m t (is_eog_token m t none).2).1 = true ∧
    (is_eog_token m t
      (is_eog_token m t (is_eog_token m t none).2).2).1 = true ∧
    (is_eog_token m u
      (is_eog_token m t
        (is_eog_token m t (is_eog_token m t none).2).2).2).1 = false := by
  have hut' : t ≠ u := fun h => hut h.symm
  simp [is_eog_token, ht1, ht2, hu1, hu2, hut, hut']

/-- Witness for `c1_repeat_detection` at `token_eos = 2`, no engine EOG,
`t = 5`, `u = 7`. -/
theorem c1_repeat_detection_witness :
    (is_eog_token ⟨2, fun _ => false⟩ 5 none).1 = false ∧
    (is_eog_token ⟨2, fun _ => false⟩ 5
      (is_eog_token ⟨2, fun _ => false⟩ 5 none).2).1 = true ∧
    (is_eog_token ⟨2, fun _ => false⟩ 5
      (is_eog_token ⟨2, fun _ => false⟩ 5
        (is_eog_token ⟨2, fun _ => false⟩ 5 none).2).2).1 = true ∧
    (is_eog_token ⟨2, fun _ => false⟩ 7
      (is_eog_token ⟨2, fun _ => false⟩ 5
        (is_eog_token ⟨2, fun _ => false⟩ 5
          (is_eog_token ⟨2, fun _ => false⟩ 5 none).2).2).2).1 = false :=
  c1_repeat_detection ⟨2, fun _ => false⟩ 5 7
    (by decide) rfl (by decide) rfl (by decide)

/-! ## Claim C4 : the sized-retry logic of the token codec -/

/-- C4 counterexample: the claim asserts that for every token whose first
8-byte attempt fails with a buffer-too-small error carrying a
negative-encoded size hint, the codec reinterprets the hint and retries
exactly once. The hint `i32::MIN` is negative-encoded, yet the code performs
no retry there: the reinterpretation itself fails (the negation wraps back
to a negative value) and the `.expect` panics, so neither a retry happens
nor is the error surfaced. -/
theorem c4_counterexample :
    (-(2 ^ 31) : Int) < 0 ∧
    (token_to_bytes ⟨3, fun _ => false⟩
      (fun _ _ => Except.error
        (TokenToStringError.insufficientBufferSpace (-(2 ^ 31)))) 9 none).1 =
      TbResult.panicked := by
  constructor
  · decide
  · rfl

/-- C4 (amended): for a non-EOS token, (a) when the first attempt with the default
8-byte buffer succeeds, its bytes are returned and the retry path is never
taken (the result does not depend on the engine's behaviour at any other
buffer size); (b) when the first attempt fails with a buffer-too-small error
carrying a negative hint `i` above `i32::MIN` — the hints whose
reinterpretation as a positive byte count is representable; at `i32::MIN`
itself the code panics instead of retrying, see the counterexample — the
codec retries exactly once with a buffer of exactly `(-i)` bytes and
surfaces that single retry's outcome: a second failure is returned as the
error, with no further attempt. -/
theorem c4_sized_retry (m : ModelCfg)
    (attempt : Token → Nat → Except TokenToStringError (List Nat))
    (t : Token) (last : Option Token) (hne : t ≠ m.token_eos) :
    (∀ bs, attempt t 8 = Except.ok bs →
      (token_to_bytes m attempt t last).1 = TbResult.ok bs) ∧
    (∀ i, attempt t 8 =
        Except.error (TokenToStringError.insufficientBufferSpace i) →
      i32min < i → i < 0 →
      (token_to_bytes m attempt t last).1 =
        (match attempt t (-i).toNat with
         | Except.ok bs => TbResult.ok bs
         | Except.error e => TbResult.err e)) := by
  have hres := token_to_bytes_of_ne m attempt t last hne
  constructor
  · intro bs h8
    rw [hres]
    show token_to_bytes_attempts attempt t = _
    simp only [token_to_bytes_attempts, h8]
  · intro i h8 hlo hneg
    have hw : wrapNeg32 i = -i := wrapNeg32_of_neg i hlo (le_of_lt hneg)
    have hnn : ¬ ((-i : Int) < 0) := by omega
    rw [hres]
    show token_to_bytes_attempts attempt t = _
    simp only [token_to_bytes_attempts, h8]
    rw [hw, if_neg hnn]

/-- Witness for `c4_sized_retry`: `token_eos = 2`, token `5`; an engine that
reports required size 12 for the 8-byte attempt and succeeds with 12 bytes of
`65` at size 12. The retried call is taken with buffer size exactly 12. -/
theorem c4_sized_retry_witness :
    (token_to_bytes ⟨2, fun _ => false⟩
      (fun _ n => if n < 12
        then Except.error (TokenToStringError.insufficientBufferSpace (-12))
        else Except.ok (List.replicate 12 65)) 5 none).1 =
      TbResult.ok (List.replicate 12 65) := by
  have h := (c4_sized_retry ⟨2, fun _ => false⟩
    (fun _ n => if n < 12
      then Except.error (TokenToStringError.insufficientBufferSpace (-12))
      else Except.ok (List.replicate 12 65)) 5 none (by decide)).2
    (-12) rfl (by decide) (by decide)
  exact h

/-! ## Claim C5 : newline substitution exactly on the canonical EOS token -/

/-- C5: `token_to_bytes` substitutes the single newline byte exactly when the
token is the canonical EOS token — and on the EOS token the detector call
made by the guard indeed classifies it as end-of-generation, whatever the
current shared state, so the conjunction in the guard is equivalent to the
EOS test. For every other token the substitution branch is skipped: the
literal conversion path runs (returning the literal bytes whenever the
engine's first attempt succeeds) and the shared detector state is untouched. -/
theorem c5_newline_substitution (m : ModelCfg)
    (attempt : Token → Nat → Except TokenToStringError (List Nat))
    (t : Token) (last : Option Token) :
    (t = m.token_eos →
      (is_eog_token m t last).1 = true ∧
      token_to_bytes m attempt t last = (TbResult.ok [10], some t)) ∧
    (t ≠ m.token_eos →
      token_to_bytes m attempt t last =
        (token_to_bytes_attempts attempt t, last) ∧
      ∀ bs, attempt t 8 = Except.ok bs →
        token_to_bytes_attempts attempt t = TbResult.ok bs) := by
  constructor
  · intro heq
    have h1 : (is_eog_token m t last).1 = true := by
      simp [is_eog_token, heq]
    refine ⟨h1, ?_⟩
    have hbeq : (t == m.token_eos) = true := by simp [heq]
    simp only [token_to_bytes, hbeq, if_true, h1]
    simp [is_eog_token]
  · intro hne
    have hbeq : (t == m.token_eos) = false := by simp [hne]
    constructor
    · simp [token_to_bytes, hbeq]
    · intro bs h8
      simp [token_to_bytes_attempts, h8]

/-- Witness for `c5_newline_substitution`: with `token_eos = 2` and an engine
returning byte `65`, the EOS token `2` yields the newline substitution (and
mutates the shared state), while token `5` takes the literal path. -/
theorem c5_newline_substitution_witness :
    (token_to_bytes ⟨2, fun _ => false⟩ (fun _ _ => Except.ok [65]) 2 none =
      (TbResult.ok [10], some 2)) ∧
    (token_to_bytes ⟨2, fun _ => false⟩ (fun _ _ => Except.ok [65]) 5 none =
      (token_to_bytes_attempts (fun _ _ => Except.ok [65]) 5, none)) :=
  ⟨((c5_newline_substitution ⟨2, fun _ => false⟩
      (fun _ _ => Except.ok [65]) 2 none).1 rfl).2,
   ((c5_newline_substitution ⟨2, fun _ => false⟩
      (fun _ _ => Except.ok [65]) 5 none).2 (by decide)).1⟩

/-! ## Claim C9 : panic-freedom of the hint conversion -/

/-- C9 counterexample: the claim asserts that whenever every buffer-too-small
hint is negative or zero, the conversion of the negated hint cannot fail and
`token_to_bytes` never panics. The hint `i32::MIN` is negative, yet `-i`
wraps back to `i32::MIN`, the `usize` conversion fails and the `expect`
panics: a concrete engine reporting hint `-(2^31)` makes `token_to_bytes`
reach the panic. -/
theorem c9_counterexample :
    (-(2 ^ 31) : Int) < 0 ∧
    (token_to_bytes ⟨2, fun _ => false⟩
      (fun _ _ => Except.error
        (TokenToStringError.insufficientBufferSpace (-(2 ^ 31)))) 5 none).1 =
      TbResult.panicked := by
  constructor
  · decide
  · rfl

/-- C9 (amended): if every buffer-too-small hint reported for the token's
first attempt is nonpositive and strictly above `i32::MIN` (so its negation
is representable), then `token_to_bytes` never panics: the conversion of the
negated hint to an unsigned buffer size succeeds. -/
theorem c9_no_panic (m : ModelCfg)
    (attempt : Token → Nat → Except TokenToStringError (List Nat))
    (t : Token) (last : Option Token)
    (h : ∀ i, attempt t 8 =
        Except.error (TokenToStringError.insufficientBufferSpace i) →
      i32min < i ∧ i ≤ 0) :
    (token_to_bytes m attempt t last).1 ≠ TbResult.panicked := by
  by_cases heq : t = m.token_eos
  · have h1 : (is_eog_token m t last).1 = true := by
      simp [is_eog_token, heq]
    have hbeq : (t == m.token_eos) = true := by simp [heq]
    simp [token_to_bytes, hbeq, h1]
  · rw [token_to_bytes_of_ne m attempt t last heq]
    show token_to_bytes_attempts attempt t ≠ _
    cases h8 : attempt t 8 with
    | ok bs => simp [token_to_bytes_attempts, h8]
    | error e =>
      cases e with
      | insufficientBufferSpace i =>
        have hi := h i h8
        have hw : wrapNeg32 i = -i := wrapNeg32_of_neg i hi.1 hi.2
        have hnn : ¬ ((-i : Int) < 0) := by
          unfold i32min at hi
          omega
        simp only [token_to_bytes_attempts, h8]
        rw [hw, if_neg hnn]
        split <;> nofun
      | otherError => simp [token_to_bytes_attempts, h8]

/-- Witness for `c9_no_panic`: an engine reporting hint `-12` at size 8 and
succeeding at size 12 never drives `token_to_bytes` into the panic. -/
theorem c9_no_panic_witness :
    (token_to_bytes ⟨2, fun _ => false⟩
      (fun _ n => if n < 12
        then Except.error (TokenToStringError.insufficientBufferSpace (-12))
        else Except.ok (List.replicate 12 65)) 5 none).1 ≠
      TbResult.panicked :=
  c9_no_panic ⟨2, fun _ => false⟩
    (fun _ n => if n < 12
      then Except.error (TokenToStringError.insufficientBufferSpace (-12))
      else Except.ok (List.replicate 12 65)) 5 none
    (by intro i hi; simp at hi; subst hi; constructor <;> decide)

/-! ## Claim C10 : the detector state is process-wide, shared by all models -/

/-- C10: the `static mut LAST_TOKEN` cell is a single process-wide state
shared by every `LlamaModel` instance. (a) a call on any model `m1`
overwrites the shared cell with its token; (b) the very next call on any
other model `m2` with the same token then reports a repeat — `m2`'s own
history is irrelevant; (c) `token_to_bytes` on `m1`'s EOS token also mutates
the shared cell as a side effect; (d) two runs of the same call on `m1`
differing only in an interleaved call through another model `m2` return
different detector results. -/
theorem c10_process_wide_state (m1 m2 : ModelCfg)
    (attempt : Token → Nat → Except TokenToStringError (List Nat))
    (g : Option Token) (t : Token) :
    ((is_eog_token m1 t g).2 = some t) ∧
    ((is_eog_token m2 t ((is_eog_token m1 t g).2)).1 = true) ∧
    ((token_to_bytes m1 attempt m1.token_eos g).2 = some m1.token_eos) ∧
    (t ≠ m1.token_eos → m1.engine_is_eog t = false →
      (is_eog_token m1 t none).1 = false ∧
      (is_eog_token m1 t ((is_eog_token m2 t none).2)).1 = true) := by
  refine ⟨rfl, ?_, ?_, ?_⟩
  · simp [is_eog_token]
  · have h1 : (is_eog_token m1 m1.token_eos g).1 = true := by
      simp [is_eog_token]
    simp [token_to_bytes, h1, is_eog_token]
  · intro h1 h2
    constructor
    · simp [is_eog_token, h1, h2]
    · simp [is_eog_token]

/-- Witness for `c10_process_wide_state` with two distinct model
configurations sharing the one detector cell. -/
theorem c10_process_wide_state_witness :
    ((is_eog_token ⟨2, fun _ => false⟩ 5 none).2 = some 5) ∧
    ((is_eog_token ⟨3, fun _ => false⟩ 5
      ((is_eog_token ⟨2, fun _ => false⟩ 5 none).2)).1 = true) ∧
    ((token_to_bytes ⟨2, fun _ => false⟩ (fun _ _ => Except.ok [65]) 2
        none).2 = some 2) ∧
    ((is_eog_token ⟨2, fun _ => false⟩ 5 none).1 = false ∧
      (is_eog_token ⟨2, fun _ => false⟩ 5
        ((is_eog_token ⟨3, fun _ => false⟩ 5 none).2)).1 = true) := by
  have h := c10_process_wide_state ⟨2, fun _ => false⟩ ⟨3, fun _ => false⟩
    (fun _ _ => Except.ok [65]) none 5
  exact ⟨h.1, h.2.1, h.2.2.1, h.2.2.2 (by decide) rfl⟩

/-! ## Incremental UTF-8 decoding (`bytes_to_text`)

Modelled from the spec: the incremental UTF-8 decoder used by the example
driver (`encoding_rs::UTF_8.new_decoder()` with
`decode_to_string(bytes, out, last)`) is an external collaborator whose code
is not under `src/`; per §4.1 it "feeds bytes into a persistent incremental
UTF-8 decoder that may hold back trailing bytes that do not yet form a
complete character; each call returns only the fully decoded portion; the
held-back remainder is consumed by the next call", and at flush time any
undecodable trailing bytes are replaced by the standard replacement
character. Bytes are `Nat` values below 256; outputs are Unicode scalar
values as `Nat` (the replacement character is `65533`). -/

/-- Is `b` a UTF-8 continuation byte (`10xxxxxx`)? -/
def contB (b : Nat) : Bool := 128 ≤ b && b ≤ 191

/-- Smallest valid second byte for the lead byte `b` (WHATWG UTF-8: `E0`
requires `A0..`, `F0` requires `90..`). -/
def lowB (b : Nat) : Nat := if b = 224 then 160 else if b = 240 then 144 else 128

/-- Largest valid second byte for the lead byte `b` (WHATWG UTF-8: `ED`
allows `..9F`, `F4` allows `..8F`). -/
def highB (b : Nat) : Nat := if b = 237 then 159 else if b = 244 then 143 else 191

/-- One decoding step at the front of a byte buffer: either a scalar value
decoded from `k` leading bytes, a malformed sequence of `k` leading bytes to
be replaced, or the whole buffer is a proper prefix of a single valid
encoding and more input is needed. -/
inductive Utf8Step where
  | emit (cp : Nat) (k : Nat)
  | replace (k : Nat)
  | needMore
deriving DecidableEq, Repr

/-- Decode one scalar (or recognise one malformed sequence) at the front of
the buffer. Decisions near the end of the buffer are `needMore` exactly when
the available bytes are a proper prefix of some valid encoding, so the
decision of an `emit`/`replace` never depends on bytes beyond the consumed
ones. -/
def decodeOne : List Nat → Utf8Step
  | [] => Utf8Step.needMore
  | b :: rest =>
    if b ≤ 127 then Utf8Step.emit b 1
    else if b < 194 then Utf8Step.replace 1
    else if b ≤ 223 then
      match rest with
      | [] => Utf8Step.needMore
      | b1 :: _ =>
        if contB b1 then Utf8Step.emit ((b - 192) * 64 + (b1 - 128)) 2
        else Utf8Step.replace 1
    else if b ≤ 239 then
      match rest with
      | [] => Utf8Step.needMore
      | b1 :: rest1 =>
        if lowB b ≤ b1 && b1 ≤ highB b then
          match rest1 with
          | [] => Utf8Step.needMore
          | b2 :: _ =>
            if contB b2 then
              Utf8Step.emit (((b - 224) * 64 + (b1 - 128)) * 64 + (b2 - 128)) 3
            else Utf8Step.replace 2
        else Utf8Step.replace 1
    else if b ≤ 244 then
      match rest with
      | [] => Utf8Step.needMore
      | b1 :: rest1 =>
        if lowB b ≤ b1 && b1 ≤ highB b then
          match rest1 with
          | [] => Utf8Step.needMore
          | b2 :: rest2 =>
            if contB b2 then
              match rest2 with
              | [] => Utf8Step.needMore
              | b3 :: _ =>
                if contB b3 then
                  Utf8Step.emit
                    ((((b - 240) * 64 + (b1 - 128)) * 64 + (b2 - 128)) * 64
                      + (b3 - 128)) 4
                else Utf8Step.replace 3
            else Utf8Step.replace 2
        else Utf8Step.replace 1
    else Utf8Step.replace 1

set_option maxHeartbeats 1600000 in
/-- Every `emit` step consumes between 1 byte and the whole buffer. -/
theorem decodeOne_emit_bounds (bs : List Nat) (c k : Nat)
    (h : decodeOne bs = Utf8Step.emit c k) : 1 ≤ k ∧ k ≤ bs.length := by
  rcases bs with _ | ⟨b, _ | ⟨b1, _ | ⟨b2, _ | ⟨b3, rest⟩⟩⟩⟩ <;>
    simp only [decodeOne] at h <;>
    (try split_ifs at h) <;> (try simp_all) <;> omega

set_option maxHeartbeats 1600000 in
/-- Every `replace` step consumes between 1 byte and the whole buffer. -/
theorem decodeOne_replace_bounds (bs : List Nat) (k : Nat)
    (h : decodeOne bs = Utf8Step.replace k) : 1 ≤ k ∧ k ≤ bs.length := by
  rcases bs with _ | ⟨b, _ | ⟨b1, _ | ⟨b2, _ | ⟨b3, rest⟩⟩⟩⟩ <;>
    simp only [decodeOne] at h <;>
    (try split_ifs at h) <;> (try simp_all) <;> omega

set_option maxHeartbeats 1600000 in
/-- An `emit` decision at the front of a buffer is stable under appending
further input: the consumed bytes fully determine it. -/
theorem decodeOne_emit_append (bs more : List Nat) (c k : Nat)
    (h : decodeOne bs = Utf8Step.emit c k) :
    decodeOne (bs ++ more) = Utf8Step.emit c k := by
  rcases bs with _ | ⟨b, _ | ⟨b1, _ | ⟨b2, _ | ⟨b3, rest⟩⟩⟩⟩ <;>
    simp only [decodeOne, List.cons_append, List.nil_append] at h ⊢ <;>
    (try split_ifs at h ⊢) <;> simp_all

set_option maxHeartbeats 1600000 in
/-- A `replace` decision at the front of a buffer is likewise stable under
appending further input. -/
theorem decodeOne_replace_append (bs more : List Nat) (k : Nat)
    (h : decodeOne bs = Utf8Step.replace k) :
    decodeOne (bs ++ more) = Utf8Step.replace k := by
  rcases bs with _ | ⟨b, _ | ⟨b1, _ | ⟨b2, _ | ⟨b3, rest⟩⟩⟩⟩ <;>
    simp only [decodeOne, List.cons_append, List.nil_append] at h ⊢ <;>
    (try split_ifs at h ⊢) <;> simp_all

/-- Fuelled front-to-back decoding of a buffer: produces the decoded scalar
values (with `65533` for each malformed sequence) and the held-back
incomplete tail. -/
def utf8GoF : Nat → List Nat → List Nat × List Nat
  | 0, bs => ([], bs)
  | fuel + 1, bs =>
    match decodeOne bs with
    | Utf8Step.needMore => ([], bs)
    | Utf8Step.emit c k =>
        (c :: (utf8GoF fuel (bs.drop k)).1, (utf8GoF fuel (bs.drop k)).2)
    | Utf8Step.replace k =>
        (65533 :: (utf8GoF fuel (bs.drop k)).1, (utf8GoF fuel (bs.drop k)).2)

/-- Decode a whole buffer (fuel = length always suffices, since every step
consumes at least one byte). -/
def utf8Go (bs : List Nat) : List Nat × List Nat := utf8GoF bs.length bs

theorem utf8GoF_nil (fuel : Nat) : utf8GoF fuel [] = ([], []) := by
  cases fuel <;> rfl

/-- The fuelled decoder is stable once the fuel covers the buffer length. -/
theorem utf8GoF_stable :
    ∀ f1 f2 bs, bs.length ≤ f1 → bs.length ≤ f2 →
      utf8GoF f1 bs = utf8GoF f2 bs := by
  intro f1
  induction f1 with
  | zero =>
    intro f2 bs h1 _
    have hbs : bs = [] := List.length_eq_zero.mp (Nat.le_zero.mp h1)
    subst hbs
    rw [utf8GoF_nil, utf8GoF_nil]
  | succ f ih =>
    intro f2 bs h1 h2
    cases f2 with
    | zero =>
      have hbs : bs = [] := List.length_eq_zero.mp (Nat.le_zero.mp h2)
      subst hbs
      rw [utf8GoF_nil, utf8GoF_nil]
    | succ g =>
      cases hstep : decodeOne bs with
      | needMore => simp only [utf8GoF, hstep]
      | emit c k =>
        have hb := decodeOne_emit_bounds bs c k hstep
        have hdrop : (bs.drop k).length ≤ f := by
          rw [List.length_drop]; omega
        have hdrop2 : (bs.drop k).length ≤ g := by
          rw [List.length_drop]; omega
        simp only [utf8GoF, hstep]
        rw [ih g (bs.drop k) hdrop hdrop2]
      | replace k =>
        have hb := decodeOne_replace_bounds bs k hstep
        have hdrop : (bs.drop k).length ≤ f := by
          rw [List.length_drop]; omega
        have hdrop2 : (bs.drop k).length ≤ g := by
          rw [List.length_drop]; omega
        simp only [utf8GoF, hstep]
        rw [ih g (bs.drop k) hdrop hdrop2]

/-- Unfolding rule for `utf8Go` on an `emit` step. -/
theorem utf8Go_emit (bs : List Nat) (c k : Nat)
    (h : decodeOne bs = Utf8Step.emit c k) :
    utf8Go bs = (c :: (utf8Go (bs.drop k)).1, (utf8Go (bs.drop k)).2) := by
  have hb := decodeOne_emit_bounds bs c k h
  have hlen : bs.length = (bs.length - 1) + 1 := by omega
  unfold utf8Go
  rw [hlen]
  simp only [utf8GoF, h]
  rw [utf8GoF_stable (bs.length - 1) (bs.drop k).length (bs.drop k)
    (by rw [List.length_drop]; omega) (le_refl _)]

/-- Unfolding rule for `utf8Go` on a `replace` step. -/
theorem utf8Go_replace (bs : List Nat) (k : Nat)
    (h : decodeOne bs = Utf8Step.replace k) :
    utf8Go bs = (65533 :: (utf8Go (bs.drop k)).1, (utf8Go (bs.drop k)).2) := by
  have hb := decodeOne_replace_bounds bs k h
  have hlen : bs.length = (bs.length - 1) + 1 := by omega
  unfold utf8Go
  rw [hlen]
  simp only [utf8GoF, h]
  rw [utf8GoF_stable (bs.length - 1) (bs.drop k).length (bs.drop k)
    (by rw [List.length_drop]; omega) (le_refl _)]

/-- A buffer on which the next decision needs more input decodes to nothing
and is held back whole. -/
theorem utf8Go_needMore (bs : List Nat) (h : decodeOne bs = Utf8Step.needMore) :
    utf8Go bs = ([], bs) := by
  cases bs with
  | nil => rfl
  | cons b rest =>
    show utf8GoF (rest.length + 1) (b :: rest) = ([], b :: rest)
    simp only [utf8GoF, h]

/-- The held-back tail of a decode is always stuck: feeding it alone makes no
progress. -/
theorem decodeOne_leftover :
    ∀ fuel bs, bs.length ≤ fuel →
      decodeOne (utf8GoF fuel bs).2 = Utf8Step.needMore := by
  intro fuel
  induction fuel with
  | zero =>
    intro bs h1
    have hbs : bs = [] := List.length_eq_zero.mp (Nat.le_zero.mp h1)
    subst hbs
    rfl
  | succ f ih =>
    intro bs h1
    simp only [utf8GoF]
    cases hstep : decodeOne bs with
    | needMore => exact hstep
    | emit c k =>
      have hb := decodeOne_emit_bounds bs c k hstep
      exact ih (bs.drop k) (by rw [List.length_drop]; omega)
    | replace k =>
      have hb := decodeOne_replace_bounds bs k hstep
      exact ih (bs.drop k) (by rw [List.length_drop]; omega)

/-- The central compositional law: decoding `a ++ b` decodes `a` first, then
resumes on `a`'s held-back tail prepended to `b`. Bytes held back by one call
are consumed by the next and never dropped. -/
theorem utf8Go_append :
    ∀ n a b, a.length ≤ n →
      utf8Go (a ++ b) =
        ((utf8Go a).1 ++ (utf8Go ((utf8Go a).2 ++ b)).1,
          (utf8Go ((utf8Go a).2 ++ b)).2) := by
  intro n
  induction n with
  | zero =>
    intro a b h1
    have ha : a = [] := List.length_eq_zero.mp (Nat.le_zero.mp h1)
    subst ha
    simp [utf8Go, utf8GoF_nil]
  | succ f ih =>
    intro a b h1
    cases hstep : decodeOne a with
    | needMore =>
      rw [utf8Go_needMore a hstep]
      simp
    | emit c k =>
      have hb := decodeOne_emit_bounds a c k hstep
      have hext := decodeOne_emit_append a b c k hstep
      have hdrop : (a ++ b).drop k = a.drop k ++ b :=
        List.drop_append_of_le_length hb.2
      rw [utf8Go_emit (a ++ b) c k hext, hdrop,
        ih (a.drop k) b (by rw [List.length_drop]; omega),
        utf8Go_emit a c k hstep]
      simp
    | replace k =>
      have hb := decodeOne_replace_bounds a k hstep
      have hext := decodeOne_replace_append a b k hstep
      have hdrop : (a ++ b).drop k = a.drop k ++ b :=
        List.drop_append_of_le_length hb.2
      rw [utf8Go_replace (a ++ b) k hext, hdrop,
        ih (a.drop k) b (by rw [List.length_drop]; omega),
        utf8Go_replace a k hstep]
      simp

/-- Streaming decode: feed the chunks one at a time, each call consuming the
previous call's held-back bytes first; returns the concatenated outputs and
the final held-back tail. -/
def streamDecode (p : List Nat) : List (List Nat) → List Nat × List Nat
  | [] => ([], p)
  | c :: cs =>
      let st := utf8Go (p ++ c)
      let rest := streamDecode st.2 cs
      (st.1 ++ rest.1, rest.2)

/-- The flush at session end: a nonempty held-back tail is resolved to the
replacement character, never silently dropped. -/
def utf8Flush (p : List Nat) : List Nat := if p.isEmpty then [] else [65533]

/-- One-shot decode of a whole byte sequence, flush included. -/
def oneShotDecode (bs : List Nat) : List Nat :=
  (utf8Go bs).1 ++ utf8Flush (utf8Go bs).2

/-- Streaming from a stuck pending state is the same as decoding the
flattened input in one go. -/
theorem streamDecode_flatten :
    ∀ (chunks : List (List Nat)) (p : List Nat),
      decodeOne p = Utf8Step.needMore →
      streamDecode p chunks = utf8Go (p ++ chunks.flatten) := by
  intro chunks
  induction chunks with
  | nil =>
    intro p hp
    simp [streamDecode, utf8Go_needMore p hp]
  | cons c cs ih =>
    intro p hp
    have hleft : decodeOne (utf8Go (p ++ c)).2 = Utf8Step.needMore := by
      unfold utf8Go
      exact decodeOne_leftover (p ++ c).length (p ++ c) (le_refl _)
    show ((utf8Go (p ++ c)).1 ++ (streamDecode (utf8Go (p ++ c)).2 cs).1,
        (streamDecode (utf8Go (p ++ c)).2 cs).2) = _
    rw [ih (utf8Go (p ++ c)).2 hleft]
    have hflat : p ++ (c :: cs).flatten = (p ++ c) ++ cs.flatten := by
      simp
    rw [hflat, utf8Go_append (p ++ c).length (p ++ c) cs.flatten (le_refl _)]

/-- Validity of a byte sequence as UTF-8: it splits completely into cleanly
emitted encodings (fuelled checker). -/
def validUtf8F : Nat → List Nat → Bool
  | _, [] => true
  | 0, _ :: _ => false
  | fuel + 1, bs =>
    match decodeOne bs with
    | Utf8Step.emit _ k => validUtf8F fuel (bs.drop k)
    | _ => false

/-- A byte sequence is well-formed UTF-8 when front-to-back decoding consumes
it completely with no malformed sequence and no incomplete tail. -/
def validUtf8 (bs : List Nat) : Bool := validUtf8F bs.length bs

/-! ## Claim C8 : streaming decode round-trip -/

/-- C8: for any sequence of per-token byte outputs whose concatenation is
well-formed UTF-8, streaming the chunks one at a time through the incremental
decoder (without flush) and concatenating the returned fragments, followed by
one final flush, yields exactly the one-shot decode (with flush) of the full
concatenated sequence; bytes held back as an incomplete trailing character by
one call are consumed by the next call and never dropped. (The equality in
fact holds for arbitrary byte chunks; well-formedness is the scope of the
claim.) -/
theorem c8_stream_roundtrip (chunks : List (List Nat))
    (_hwf : validUtf8 chunks.flatten = true) :
    (streamDecode [] chunks).1 ++ utf8Flush (streamDecode [] chunks).2 =
      oneShotDecode chunks.flatten := by
  have hs := streamDecode_flatten chunks [] rfl
  rw [hs]
  simp [oneShotDecode]

/-- Witness for `c8_stream_roundtrip`: the bytes of `"éA"` with the two-byte
encoding of `é` split across two chunks. -/
theorem c8_stream_roundtrip_witness :
    (streamDecode [] [[195], [169, 65]]).1 ++
        utf8Flush (streamDecode [] [[195], [169, 65]]).2 =
      oneShotDecode [[195], [169, 65]].flatten :=
  c8_stream_roundtrip [[195], [169, 65]] (by decide)

/-! ## The generation loop of `examples/simple.rs`

Embedding of the `while n_cur <= n_len` loop (simple.rs lines 19-55).
External collaborators appear as oracles: `sample j` is the token the
sampler returns at the `j`-th loop iteration (the sampler's internal chain
state is abstracted by the iteration index), `decodeRes j b` is the success
of the `j`-th `ctx.decode` call on batch `b`, `attempt` is the engine's
token conversion as before, and `cap` is the batch capacity fixed at
construction. The incremental `encoding_rs` decoder is the `utf8Go` model
above, its pending bytes held in the state. -/

/-- One entry of the Batch: what `batch.add(token, pos, &[0], true)`
records. -/
structure BatchEntry where
  token : Token
  pos : Nat
  seq_ids : List Nat
  logits : Bool
deriving DecidableEq, Repr

/-- The mutable state of one loop iteration of `main`: the counters
`n_cur`, `n_decode`, `consecutive_eos`, the process-wide detector cell, the
UTF-8 decoder's pending bytes, the batch, the emitted nonempty fragments
(in order), and the tokens sampled so far. -/
structure LoopState where
  n_cur : Nat
  n_decode : Nat
  consecutive_eos : Nat
  last : Option Token
  pending : List Nat
  batch : List BatchEntry
  frags : List (List Nat)
  sampled : List Token
deriving DecidableEq, Repr

/-- Why the loop ended: the `while` condition failed (`maxLength`), the
`consecutive_eos >= 3` break (`eosLoop`), the `ctx.decode` error break
(`decodeError`, reported to diagnostics, `main` still returns `Ok`), a `?`
propagation out of `main` (`fatalError`), or a Rust panic. -/
inductive StopReason where
  | maxLength
  | eosLoop
  | decodeError
  | fatalError
  | panic
deriving DecidableEq, Repr

/-- Outcome of one loop iteration: continue with the new state, or leave the
loop. -/
inductive IterOut where
  | next (s : LoopState)
  | halt (s : LoopState) (r : StopReason)
deriving DecidableEq, Repr

/-- One iteration of the loop body (simple.rs lines 20-54):
sample, run the detector (with the `consecutive_eos` break), convert via
`token_to_bytes` (`?` on error), feed the incremental UTF-8 decoder and emit
a nonempty fragment, clear the batch and add the new token at `n_cur`
(`?` on capacity), advance `n_cur`, then invoke `ctx.decode` (break on
error) and count the successful decode. -/
def loopIter (m : ModelCfg) (sample : Nat → Token)
    (decodeRes : Nat → List BatchEntry → Bool)
    (attempt : Token → Nat → Except TokenToStringError (List Nat))
    (cap : Nat) (s : LoopState) : IterOut :=
  let t := sample s.sampled.length
  let eog := is_eog_token m t s.last
  let s1 : LoopState :=
    { s with
      sampled := s.sampled ++ [t]
      last := eog.2
      consecutive_eos := if eog.1 then s.consecutive_eos + 1 else 0 }
  if eog.1 ∧ 3 ≤ s.consecutive_eos + 1 then IterOut.halt s1 StopReason.eosLoop
  else
    let tb := token_to_bytes m attempt t s1.last
    let s2 := { s1 with last := tb.2 }
    match tb.1 with
    | TbResult.panicked => IterOut.halt s2 StopReason.panic
    | TbResult.err _ => IterOut.halt s2 StopReason.fatalError
    | TbResult.ok bytes =>
        let dec := utf8Go (s2.pending ++ bytes)
        let frags1 := if dec.1 = [] then s2.frags else s2.frags ++ [dec.1]
        if cap = 0 then
          IterOut.halt { s2 with pending := dec.2, frags := frags1, batch := [] }
            StopReason.fatalError
        else
          let b1 : List BatchEntry := [⟨t, s.n_cur, [0], true⟩]
          let s3 :=
            { s2 with
              pending := dec.2
              frags := frags1
              batch := b1
              n_cur := s.n_cur + 1 }
          if decodeRes s.n_decode b1 then
            IterOut.next { s3 with n_decode := s.n_decode + 1 }
          else
            IterOut.halt s3 StopReason.decodeError

/-- The fuelled loop: `while n_cur <= n_len { ... }`. With fuel
`n_len + 1 - n_cur` the fuel never runs out before the condition fails, and
at zero fuel the condition has already failed. -/
def runLoopF (m : ModelCfg) (sample : Nat → Token)
    (decodeRes : Nat → List BatchEntry → Bool)
    (attempt : Token → Nat → Except TokenToStringError (List Nat))
    (cap n_len : Nat) : Nat → LoopState → LoopState × StopReason
  | 0, s => (s, StopReason.maxLength)
  | fuel + 1, s =>
    if s.n_cur ≤ n_len then
      match loopIter m sample decodeRes attempt cap s with
      | IterOut.next s1 =>
          runLoopF m sample decodeRes attempt cap n_len fuel s1
      | IterOut.halt s1 r => (s1, r)
    else (s, StopReason.maxLength)

/-- The loop from a given state (fuel chosen to outlast the `while`
condition). -/
def runLoop (m : ModelCfg) (sample : Nat → Token)
    (decodeRes : Nat → List BatchEntry → Bool)
    (attempt : Token → Nat → Except TokenToStringError (List Nat))
    (cap n_len : Nat) (s : LoopState) : LoopState × StopReason :=
  runLoopF m sample decodeRes attempt cap n_len (n_len + 1 - s.n_cur) s

/-! ## Unfolding helpers for the loop -/

theorem runLoopF_next (m : ModelCfg) (sample : Nat → Token)
    (decodeRes : Nat → List BatchEntry → Bool)
    (attempt : Token → Nat → Except TokenToStringError (List Nat))
    (cap n_len fuel : Nat) (s s1 : LoopState) (h1 : s.n_cur ≤ n_len)
    (h2 : loopIter m sample decodeRes attempt cap s = IterOut.next s1) :
    runLoopF m sample decodeRes attempt cap n_len (fuel + 1) s =
      runLoopF m sample decodeRes attempt cap n_len fuel s1 := by
  simp only [runLoopF, h1, if_true, h2]

theorem runLoopF_halt (m : ModelCfg) (sample : Nat → Token)
    (decodeRes : Nat → List BatchEntry → Bool)
    (attempt : Token → Nat → Except TokenToStringError (List Nat))
    (cap n_len fuel : Nat) (s s1 : LoopState) (r : StopReason)
    (h1 : s.n_cur ≤ n_len)
    (h2 : loopIter m sample decodeRes attempt cap s = IterOut.halt s1 r) :
    runLoopF m sample decodeRes attempt cap n_len (fuel + 1) s = (s1, r) := by
  simp only [runLoopF, h1, if_true, h2]

theorem runLoopF_maxed (m : ModelCfg) (sample : Nat → Token)
    (decodeRes : Nat → List BatchEntry → Bool)
    (attempt : Token → Nat → Except TokenToStringError (List Nat))
    (cap n_len fuel : Nat) (s : LoopState) (h1 : ¬ s.n_cur ≤ n_len) :
    runLoopF m sample decodeRes attempt cap n_len (fuel + 1) s =
      (s, StopReason.maxLength) := by
  simp only [runLoopF, h1, if_false]

/-! ## Evaluation helpers for the detector and the codec -/

theorem is_eog_token_none (m : ModelCfg) (t : Token) :
    is_eog_token m t none = (t == m.token_eos || m.engine_is_eog t, some t) := by
  simp [is_eog_token]

theorem is_eog_token_some (m : ModelCfg) (t u : Token) :
    is_eog_token m u (some t) =
      ((t == u) || u == m.token_eos || m.engine_is_eog u, some u) := by
  simp [is_eog_token]

/-- On the EOS token the guard in `token_to_bytes` always fires. -/
theorem token_to_bytes_eos_eq (m : ModelCfg)
    (attempt : Token → Nat → Except TokenToStringError (List Nat))
    (last : Option Token) :
    token_to_bytes m attempt m.token_eos last =
      (TbResult.ok [10], some m.token_eos) := by
  have h1 : (is_eog_token m m.token_eos last).1 = true := by
    simp [is_eog_token]
  simp [token_to_bytes, h1, is_eog_token]

/-! ## Claim C7 : position/batch invariant of the steady-state loop -/

/-- C7: every continuing loop iteration advances the position counter by
exactly one, and the batch submitted to the decode call of that iteration —
after `clear()` and the single `add` — is exactly the one newly sampled
token at position `n_cur` (the position of the new token), never stale
entries from a prior step; the successful-decode counter also advances by
one. -/
theorem c7_position_batch_invariant (m : ModelCfg) (sample : Nat → Token)
    (decodeRes : Nat → List BatchEntry → Bool)
    (attempt : Token → Nat → Except TokenToStringError (List Nat))
    (cap : Nat) (s s' : LoopState)
    (h : loopIter m sample decodeRes attempt cap s = IterOut.next s') :
    s'.n_cur = s.n_cur + 1 ∧
    s'.batch = [⟨sample s.sampled.length, s.n_cur, [0], true⟩] ∧
    s'.n_decode = s.n_decode + 1 ∧
    decodeRes s.n_decode [⟨sample s.sampled.length, s.n_cur, [0], true⟩] =
      true := by
  simp only [loopIter] at h
  by_cases hbrk : (is_eog_token m (sample s.sampled.length) s.last).1 = true ∧
      3 ≤ s.consecutive_eos + 1
  · rw [if_pos hbrk] at h
    exact IterOut.noConfusion h
  · rw [if_neg hbrk] at h
    cases htb : (token_to_bytes m attempt (sample s.sampled.length)
        (is_eog_token m (sample s.sampled.length) s.last).2).1 with
    | panicked =>
      simp only [htb] at h
      exact IterOut.noConfusion h
    | err e =>
      simp only [htb] at h
      exact IterOut.noConfusion h
    | ok bytes =>
      simp only [htb] at h
      by_cases hcap : cap = 0
      · rw [if_pos hcap] at h
        exact IterOut.noConfusion h
      · rw [if_neg hcap] at h
        by_cases hdec : decodeRes s.n_decode
            [⟨sample s.sampled.length, s.n_cur, [0], true⟩] = true
        · rw [if_pos hdec] at h
          injection h with h'
          subst h'
          exact ⟨rfl, rfl, rfl, hdec⟩
        · rw [if_neg hdec] at h
          exact IterOut.noConfusion h

/-- Witness for `c7_position_batch_invariant` on a concrete continuing
iteration. -/
theorem c7_position_batch_invariant_witness :
    (6 : Nat) = 5 + 1 ∧
    ([⟨7, 5, [0], true⟩] : List BatchEntry) = [⟨7, 5, [0], true⟩] ∧
    (1 : Nat) = 0 + 1 ∧
    true = true :=
  c7_position_batch_invariant ⟨2, fun _ => false⟩ (fun _ => 7)
    (fun _ _ => true) (fun _ _ => Except.ok [65]) 1
    ⟨5, 0, 0, none, [], [], [], []⟩
    ⟨6, 1, 0, some 7, [], [⟨7, 5, [0], true⟩], [[65]], [7]⟩ rfl

/-! ## Claim C6 : a failed decode ends the session immediately -/

/-- C6: at any step whose `ctx.decode` call fails, the loop returns at once
with the terminal reason `decodeError`: the run's final state is exactly
this iteration's state, only this iteration's token was sampled, the
successful-decode counter is not advanced, the failing decode was invoked on
exactly the freshly built batch and is not retried, and the loop function
returns normally (the reason is the reported non-fatal `decodeError`, not a
panic or a `?`-propagated fatal error). -/
theorem c6_decode_error_stops (m : ModelCfg) (sample : Nat → Token)
    (decodeRes : Nat → List BatchEntry → Bool)
    (attempt : Token → Nat → Except TokenToStringError (List Nat))
    (cap n_len fuel : Nat) (s s' : LoopState)
    (hcur : s.n_cur ≤ n_len)
    (h : loopIter m sample decodeRes attempt cap s =
      IterOut.halt s' StopReason.decodeError) :
    runLoopF m sample decodeRes attempt cap n_len (fuel + 1) s =
      (s', StopReason.decodeError) ∧
    s'.sampled = s.sampled ++ [sample s.sampled.length] ∧
    s'.n_decode = s.n_decode ∧
    s'.batch = [⟨sample s.sampled.length, s.n_cur, [0], true⟩] ∧
    decodeRes s.n_decode [⟨sample s.sampled.length, s.n_cur, [0], true⟩] =
      false := by
  refine ⟨runLoopF_halt m sample decodeRes attempt cap n_len fuel s s' _
    hcur h, ?_⟩
  simp only [loopIter] at h
  by_cases hbrk : (is_eog_token m (sample s.sampled.length) s.last).1 = true ∧
      3 ≤ s.consecutive_eos + 1
  · rw [if_pos hbrk] at h
    simp at h
  · rw [if_neg hbrk] at h
    cases htb : (token_to_bytes m attempt (sample s.sampled.length)
        (is_eog_token m (sample s.sampled.length) s.last).2).1 with
    | panicked =>
      simp only [htb] at h
      simp at h
    | err e =>
      simp only [htb] at h
      simp at h
    | ok bytes =>
      simp only [htb] at h
      by_cases hcap : cap = 0
      · rw [if_pos hcap] at h
        simp at h
      · rw [if_neg hcap] at h
        by_cases hdec : decodeRes s.n_decode
            [⟨sample s.sampled.length, s.n_cur, [0], true⟩] = true
        · rw [if_pos hdec] at h
          simp at h
        · rw [if_neg hdec] at h
          injection h with h1 h2
          subst h1
          exact ⟨rfl, rfl, rfl, by simpa using hdec⟩

/-- Witness for `c6_decode_error_stops` on a concrete failing decode. -/
theorem c6_decode_error_stops_witness :
    runLoopF ⟨2, fun _ => false⟩ (fun _ => 7) (fun _ _ => false)
        (fun _ _ => Except.ok [65]) 1 10 6 ⟨5, 0, 0, none, [], [], [], []⟩ =
      (⟨6, 0, 0, some 7, [], [⟨7, 5, [0], true⟩], [[65]], [7]⟩,
        StopReason.decodeError) ∧
    ([7] : List Token) = [] ++ [7] ∧
    (0 : Nat) = 0 ∧
    ([⟨7, 5, [0], true⟩] : List BatchEntry) = [⟨7, 5, [0], true⟩] ∧
    false = false :=
  c6_decode_error_stops ⟨2, fun _ => false⟩ (fun _ => 7) (fun _ _ => false)
    (fun _ _ => Except.ok [65]) 1 10 5 ⟨5, 0, 0, none, [], [], [], []⟩
    ⟨6, 0, 0, some 7, [], [⟨7, 5, [0], true⟩], [[65]], [7]⟩
    (by decide) rfl

/-! ## Characterisations of single loop iterations -/

/-- A "quiet" iteration: the detector reports false, the engine conversion
succeeds on the first attempt, the batch has room and the decode succeeds.
The loop continues with the counters advanced and the detector cleared. -/
theorem loopIter_quiet (m : ModelCfg) (sample : Nat → Token)
    (decodeRes : Nat → List BatchEntry → Bool)
    (attempt : Token → Nat → Except TokenToStringError (List Nat))
    (cap : Nat) (s : LoopState) (bs : List Nat)
    (heog : (is_eog_token m (sample s.sampled.length) s.last).1 = false)
    (hne : sample s.sampled.length ≠ m.token_eos)
    (hb : attempt (sample s.sampled.length) 8 = Except.ok bs)
    (hcap : cap ≠ 0)
    (hdec : decodeRes s.n_decode
      [⟨sample s.sampled.length, s.n_cur, [0], true⟩] = true) :
    loopIter m sample decodeRes attempt cap s = IterOut.next
      { n_cur := s.n_cur + 1
        n_decode := s.n_decode + 1
        consecutive_eos := 0
        last := some (sample s.sampled.length)
        pending := (utf8Go (s.pending ++ bs)).2
        batch := [⟨sample s.sampled.length, s.n_cur, [0], true⟩]
        frags := if (utf8Go (s.pending ++ bs)).1 = [] then s.frags
          else s.frags ++ [(utf8Go (s.pending ++ bs)).1]
        sampled := s.sampled ++ [sample s.sampled.length] } := by
  have hsnd : (is_eog_token m (sample s.sampled.length) s.last).2 =
      some (sample s.sampled.length) := rfl
  have htb := token_to_bytes_of_ne m attempt (sample s.sampled.length)
    (some (sample s.sampled.length)) hne
  have hatt : token_to_bytes_attempts attempt (sample s.sampled.length) =
      TbResult.ok bs := by
    simp [token_to_bytes_attempts, hb]
  simp [loopIter, hsnd, htb, hatt, heog, hcap, hdec]

/-- An EOS iteration below the break threshold: the detector fires (the
token is the canonical EOS), `consecutive_eos` rises, the codec substitutes
the newline byte, and the loop continues. -/
theorem loopIter_eos (m : ModelCfg) (sample : Nat → Token)
    (decodeRes : Nat → List BatchEntry → Bool)
    (attempt : Token → Nat → Except TokenToStringError (List Nat))
    (cap : Nat) (s : LoopState)
    (hs : sample s.sampled.length = m.token_eos)
    (hce : s.consecutive_eos + 1 < 3)
    (hcap : cap ≠ 0)
    (hdec : decodeRes s.n_decode
      [⟨m.token_eos, s.n_cur, [0], true⟩] = true) :
    loopIter m sample decodeRes attempt cap s = IterOut.next
      { n_cur := s.n_cur + 1
        n_decode := s.n_decode + 1
        consecutive_eos := s.consecutive_eos + 1
        last := some m.token_eos
        pending := (utf8Go (s.pending ++ [10])).2
        batch := [⟨m.token_eos, s.n_cur, [0], true⟩]
        frags := if (utf8Go (s.pending ++ [10])).1 = [] then s.frags
          else s.frags ++ [(utf8Go (s.pending ++ [10])).1]
        sampled := s.sampled ++ [m.token_eos] } := by
  have heog : (is_eog_token m m.token_eos s.last).1 = true := by
    simp [is_eog_token]
  have hnotbrk : ¬ ((is_eog_token m m.token_eos s.last).1 = true ∧
      3 ≤ s.consecutive_eos + 1) := by
    intro hcon
    omega
  simp only [loopIter, hs]
  rw [if_neg hnotbrk]
  simp only [token_to_bytes_eos_eq]
  rw [if_neg hcap, if_pos hdec]
  simp [heog]

/-- An EOS iteration at the break threshold: `consecutive_eos` reaches 3 and
the loop breaks out with reason `eosLoop` before converting or emitting. -/
theorem loopIter_eos_break (m : ModelCfg) (sample : Nat → Token)
    (decodeRes : Nat → List BatchEntry → Bool)
    (attempt : Token → Nat → Except TokenToStringError (List Nat))
    (cap : Nat) (s : LoopState)
    (hs : sample s.sampled.length = m.token_eos)
    (hce : 3 ≤ s.consecutive_eos + 1) :
    loopIter m sample decodeRes attempt cap s = IterOut.halt
      { s with
        sampled := s.sampled ++ [m.token_eos]
        last := some m.token_eos
        consecutive_eos := s.consecutive_eos + 1 }
      StopReason.eosLoop := by
  have heog : (is_eog_token m m.token_eos s.last).1 = true := by
    simp [is_eog_token]
  have hbrk : (is_eog_token m m.token_eos s.last).1 = true ∧
      3 ≤ s.consecutive_eos + 1 := ⟨heog, hce⟩
  simp only [loopIter, hs]
  rw [if_pos hbrk]
  simp [is_eog_token, heog]

/-! ## The loop under a never-firing detector runs to the length bound -/

/-- When the detector never fires (non-EOS, non-engine-EOG, never-repeating
samples), every conversion succeeds with a complete nonempty fragment, the
batch has room and every decode succeeds, the loop performs exactly
`n_len + 1 - n_cur` further iterations — one fragment and one sampled token
each — and stops with `maxLength`. -/
theorem run_quiet_to_max (m : ModelCfg) (sample : Nat → Token)
    (decodeRes : Nat → List BatchEntry → Bool)
    (attempt : Token → Nat → Except TokenToStringError (List Nat))
    (cap n_len : Nat) (bytesOf : Nat → List Nat)
    (hs_eos : ∀ j, sample j ≠ m.token_eos)
    (hs_eng : ∀ j, m.engine_is_eog (sample j) = false)
    (hs_rep : ∀ j, sample (j + 1) ≠ sample j)
    (hb : ∀ j, attempt (sample j) 8 = Except.ok (bytesOf j))
    (hbne : ∀ j, (utf8Go (bytesOf j)).1 ≠ [])
    (hbcl : ∀ j, (utf8Go (bytesOf j)).2 = [])
    (hcap : cap ≠ 0)
    (hdec : ∀ j b, decodeRes j b = true) :
    ∀ fuel s, fuel = n_len + 1 - s.n_cur →
      s.pending = [] →
      s.last ≠ some (sample s.sampled.length) →
      ∃ sf, runLoopF m sample decodeRes attempt cap n_len fuel s =
          (sf, StopReason.maxLength) ∧
        sf.frags.length = s.frags.length + fuel ∧
        sf.sampled.length = s.sampled.length + fuel ∧
        sf.n_cur = s.n_cur + fuel := by
  intro fuel
  induction fuel with
  | zero =>
    intro s hf hp hl
    exact ⟨s, rfl, by omega, by omega, by omega⟩
  | succ f ih =>
    intro s hf hp hl
    have hcur : s.n_cur ≤ n_len := by omega
    have heog : (is_eog_token m (sample s.sampled.length) s.last).1 = false := by
      simp [is_eog_token, hs_eos s.sampled.length, hs_eng s.sampled.length, hl]
    have hstep := loopIter_quiet m sample decodeRes attempt cap s
      (bytesOf s.sampled.length) heog (hs_eos _) (hb _) hcap (hdec _ _)
    rw [runLoopF_next m sample decodeRes attempt cap n_len f s _ hcur hstep]
    have hfr : (utf8Go (s.pending ++ bytesOf s.sampled.length)).1 =
        (utf8Go (bytesOf s.sampled.length)).1 := by rw [hp]; simp
    have hpd : (utf8Go (s.pending ++ bytesOf s.sampled.length)).2 = [] := by
      rw [hp]; simp [hbcl]
    obtain ⟨sf, h1, h2, h3, h4⟩ := ih
      { n_cur := s.n_cur + 1
        n_decode := s.n_decode + 1
        consecutive_eos := 0
        last := some (sample s.sampled.length)
        pending := (utf8Go (s.pending ++ bytesOf s.sampled.length)).2
        batch := [⟨sample s.sampled.length, s.n_cur, [0], true⟩]
        frags := if (utf8Go (s.pending ++ bytesOf s.sampled.length)).1 = []
          then s.frags
          else s.frags ++ [(utf8Go (s.pending ++ bytesOf s.sampled.length)).1]
        sampled := s.sampled ++ [sample s.sampled.length] }
      (by simp; omega) (by simpa using hpd)
      (by
        simp only [List.length_append, List.length_cons, List.length_nil]
        intro hcon
        exact hs_rep s.sampled.length (by
          injection hcon with hcon'
          exact hcon'.symm))
    refine ⟨sf, h1, ?_, ?_, ?_⟩
    · simp [hfr, hbne s.sampled.length] at h2
      omega
    · simp at h3
      omega
    · simp at h4
      omega

/-! ## Claim C3 : the max-length scenario -/

/-- C3 counterexample: with a 5-token prompt (`n_cur` starts at 5), maximum
length 10, always-successful decodes and a never-repeating non-EOS sampler,
the loop emits 6 converted fragments, not 5: the `while n_cur <= n_len`
condition runs one further iteration when the position counter equals the
maximum, and the loop only stops once the counter exceeds it. -/
theorem c3_counterexample :
    (runLoop ⟨2, fun _ => false⟩ (fun j => (j : Int) + 100) (fun _ _ => true)
      (fun _ _ => Except.ok [65]) 1 10
      ⟨5, 0, 0, none, [], [], [], []⟩).1.frags.length = 6 ∧
    (runLoop ⟨2, fun _ => false⟩ (fun j => (j : Int) + 100) (fun _ _ => true)
      (fun _ _ => Except.ok [65]) 1 10
      ⟨5, 0, 0, none, [], [], [], []⟩).2 = StopReason.maxLength :=
  ⟨rfl, rfl⟩

/-- C3 (amended): with a prompt of 5 tokens (position counter starting at 5),
caller-supplied maximum length 10, every decode successful, and a sampler
whose tokens never fire the detector (non-EOS, not engine-classified, never
equal to the previous token), each converting to a complete nonempty
fragment: the loop runs while the position counter is at most 10 — one final
step happens at position 10 — and stops with reason max-length once the
counter reaches 11, having emitted exactly 6 converted fragments (one per
sampled token). -/
theorem c3_max_length_run (m : ModelCfg) (sample : Nat → Token)
    (decodeRes : Nat → List BatchEntry → Bool)
    (attempt : Token → Nat → Except TokenToStringError (List Nat))
    (cap : Nat) (bytesOf : Nat → List Nat) (b0 : List BatchEntry)
    (hs_eos : ∀ j, sample j ≠ m.token_eos)
    (hs_eng : ∀ j, m.engine_is_eog (sample j) = false)
    (hs_rep : ∀ j, sample (j + 1) ≠ sample j)
    (hb : ∀ j, attempt (sample j) 8 = Except.ok (bytesOf j))
    (hbne : ∀ j, (utf8Go (bytesOf j)).1 ≠ [])
    (hbcl : ∀ j, (utf8Go (bytesOf j)).2 = [])
    (hcap : cap ≠ 0)
    (hdec : ∀ j b, decodeRes j b = true) :
    ∃ sf, runLoop m sample decodeRes attempt cap 10
        ⟨5, 0, 0, none, [], b0, [], []⟩ = (sf, StopReason.maxLength) ∧
      sf.frags.length = 6 ∧ sf.sampled.length = 6 ∧ sf.n_cur = 11 := by
  obtain ⟨sf, h1, h2, h3, h4⟩ := run_quiet_to_max m sample decodeRes attempt
    cap 10 bytesOf hs_eos hs_eng hs_rep hb hbne hbcl hcap hdec 6
    ⟨5, 0, 0, none, [], b0, [], []⟩ rfl rfl (by simp)
  exact ⟨sf, h1, by simpa using h2, by simpa using h3, by simpa using h4⟩

/-- Witness for `c3_max_length_run` with concrete never-repeating tokens. -/
theorem c3_max_length_run_witness :
    ∃ sf, runLoop ⟨2, fun _ => false⟩ (fun j => (j : Int) + 100)
        (fun _ _ => true) (fun _ _ => Except.ok [65]) 1 10
        ⟨5, 0, 0, none, [], [], [], []⟩ = (sf, StopReason.maxLength) ∧
      sf.frags.length = 6 ∧ sf.sampled.length = 6 ∧ sf.n_cur = 11 :=
  c3_max_length_run ⟨2, fun _ => false⟩ (fun j => (j : Int) + 100)
    (fun _ _ => true) (fun _ _ => Except.ok [65]) 1 (fun _ => [65]) []
    (by intro j; show (j : Int) + 100 ≠ 2; omega)
    (fun _ => rfl)
    (by intro j; simp)
    (fun _ => rfl)
    (fun _ => by show (utf8Go [65]).1 ≠ []; decide)
    (fun _ => rfl)
    (by decide)
    (fun _ _ => rfl)

/-! ## Claim C2 : the EOS scenario -/

/-- C2 counterexample: the sampler returns the canonical EOS token (2) on
the 2nd step, yet the loop does not stop after 2 sampled tokens — it samples
a 3rd token and eventually ends by the length bound: the `consecutive_eos`
break requires the detector to fire on 3 consecutive steps before the loop
leaves on account of end-of-generation. -/
theorem c2_counterexample :
    (runLoop ⟨2, fun _ => false⟩
      (fun j => if j = 1 then 2 else (j : Int) + 100) (fun _ _ => true)
      (fun _ _ => Except.ok [65]) 1 3
      ⟨1, 0, 0, none, [], [], [], []⟩).1.sampled.length = 3 ∧
    (runLoop ⟨2, fun _ => false⟩
      (fun j => if j = 1 then 2 else (j : Int) + 100) (fun _ _ => true)
      (fun _ _ => Except.ok [65]) 1 3
      ⟨1, 0, 0, none, [], [], [], []⟩).2 = StopReason.maxLength :=
  ⟨rfl, rfl⟩

/-- C2 (amended): the detector returns stop=true immediately on the model's
canonical EOS token, whatever the current repeat state, and every
non-breaking EOS step emits the single newline substitution instead of the
EOS token's literal text — but the loop does not stop at the first EOS:
when the sampler returns EOS from the 2nd step onward (first step a
non-EOG token converting to a complete nonempty fragment), the loop breaks
with reason `eosLoop` only at the 4th sampled token, after the detector has
fired on 3 consecutive steps; the 4th (breaking) step emits nothing. -/
theorem c2_eos_loop_behaviour (m : ModelCfg) (sample : Nat → Token)
    (decodeRes : Nat → List BatchEntry → Bool)
    (attempt : Token → Nat → Except TokenToStringError (List Nat))
    (cap n_len p : Nat) (t0 : Token) (bs0 : List Nat) (b0 : List BatchEntry)
    (hs0 : sample 0 = t0) (hs1 : sample 1 = m.token_eos)
    (hs2 : sample 2 = m.token_eos) (hs3 : sample 3 = m.token_eos)
    (ht0e : t0 ≠ m.token_eos) (ht0g : m.engine_is_eog t0 = false)
    (hb0 : attempt t0 8 = Except.ok bs0)
    (hb0ne : (utf8Go bs0).1 ≠ []) (hb0cl : (utf8Go bs0).2 = [])
    (hcap : cap ≠ 0) (hdec : ∀ j b, decodeRes j b = true)
    (hlen : p + 3 ≤ n_len) :
    (∀ g, (is_eog_token m m.token_eos g).1 = true) ∧
    runLoop m sample decodeRes attempt cap n_len
        ⟨p, 0, 0, none, [], b0, [], []⟩ =
      (⟨p + 3, 3, 3, some m.token_eos, [], [⟨m.token_eos, p + 2, [0], true⟩],
          [(utf8Go bs0).1, [10], [10]],
          [t0, m.token_eos, m.token_eos, m.token_eos]⟩,
        StopReason.eosLoop) := by
  have h10 : utf8Go [10] = ([10], []) := rfl
  refine ⟨fun g => by simp [is_eog_token], ?_⟩
  have e1 : loopIter m sample decodeRes attempt cap
      ⟨p, 0, 0, none, [], b0, [], []⟩ =
      IterOut.next ⟨p + 1, 1, 0, some t0, [], [⟨t0, p, [0], true⟩],
        [(utf8Go bs0).1], [t0]⟩ := by
    have h := loopIter_quiet m sample decodeRes attempt cap
      ⟨p, 0, 0, none, [], b0, [], []⟩ bs0
      (by simp [is_eog_token, hs0, ht0e, ht0g])
      (by simpa [hs0] using ht0e)
      (by simpa [hs0] using hb0)
      hcap (hdec _ _)
    rw [h]
    simp [hs0, hb0cl, hb0ne]
  have e2 : loopIter m sample decodeRes attempt cap
      ⟨p + 1, 1, 0, some t0, [], [⟨t0, p, [0], true⟩],
        [(utf8Go bs0).1], [t0]⟩ =
      IterOut.next ⟨p + 2, 2, 1, some m.token_eos,
        [], [⟨m.token_eos, p + 1, [0], true⟩],
        [(utf8Go bs0).1, [10]], [t0, m.token_eos]⟩ := by
    have h := loopIter_eos m sample decodeRes attempt cap
      ⟨p + 1, 1, 0, some t0, [], [⟨t0, p, [0], true⟩],
        [(utf8Go bs0).1], [t0]⟩
      (by simpa using hs1) (show (0 : Nat) + 1 < 3 by decide) hcap (hdec _ _)
    rw [h]
    simp [h10]
  have e3 : loopIter m sample decodeRes attempt cap
      ⟨p + 2, 2, 1, some m.token_eos, [], [⟨m.token_eos, p + 1, [0], true⟩],
        [(utf8Go bs0).1, [10]], [t0, m.token_eos]⟩ =
      IterOut.next ⟨p + 3, 3, 2, some m.token_eos,
        [], [⟨m.token_eos, p + 2, [0], true⟩],
        [(utf8Go bs0).1, [10], [10]], [t0, m.token_eos, m.token_eos]⟩ := by
    have h := loopIter_eos m sample decodeRes attempt cap
      ⟨p + 2, 2, 1, some m.token_eos, [], [⟨m.token_eos, p + 1, [0], true⟩],
        [(utf8Go bs0).1, [10]], [t0, m.token_eos]⟩
      (by simpa using hs2) (show (1 : Nat) + 1 < 3 by decide) hcap (hdec _ _)
    rw [h]
    simp [h10]
  have e4 : loopIter m sample decodeRes attempt cap
      ⟨p + 3, 3, 2, some m.token_eos, [], [⟨m.token_eos, p + 2, [0], true⟩],
        [(utf8Go bs0).1, [10], [10]], [t0, m.token_eos, m.token_eos]⟩ =
      IterOut.halt ⟨p + 3, 3, 3, some m.token_eos,
        [], [⟨m.token_eos, p + 2, [0], true⟩],
        [(utf8Go bs0).1, [10], [10]],
        [t0, m.token_eos, m.token_eos, m.token_eos]⟩
        StopReason.eosLoop := by
    have h := loopIter_eos_break m sample decodeRes attempt cap
      ⟨p + 3, 3, 2, some m.token_eos, [], [⟨m.token_eos, p + 2, [0], true⟩],
        [(utf8Go bs0).1, [10], [10]], [t0, m.token_eos, m.token_eos]⟩
      (by simpa using hs3) (show (3 : Nat) ≤ 2 + 1 by decide)
    rw [h]
    simp
  obtain ⟨f4, hf4⟩ : ∃ f, n_len + 1 - p = (((f + 1) + 1) + 1) + 1 :=
    ⟨n_len - p - 3, by omega⟩
  show runLoopF m sample decodeRes attempt cap n_len (n_len + 1 - p) _ = _
  rw [hf4]
  rw [runLoopF_next m sample decodeRes attempt cap n_len (((f4 + 1) + 1) + 1)
    _ _ (show p ≤ n_len by omega) e1]
  rw [runLoopF_next m sample decodeRes attempt cap n_len ((f4 + 1) + 1)
    _ _ (show p + 1 ≤ n_len by omega) e2]
  rw [runLoopF_next m sample decodeRes attempt cap n_len (f4 + 1)
    _ _ (show p + 2 ≤ n_len by omega) e3]
  rw [runLoopF_halt m sample decodeRes attempt cap n_len f4
    _ _ _ (show p + 3 ≤ n_len by omega) e4]

/-- Witness for `c2_eos_loop_behaviour` with EOS token 2 sampled from step 2
onward. -/
theorem c2_eos_loop_behaviour_witness :
    (∀ g, (is_eog_token ⟨2, fun _ => false⟩ 2 g).1 = true) ∧
    runLoop ⟨2, fun _ => false⟩ (fun j => if j = 0 then 7 else 2)
        (fun _ _ => true) (fun _ _ => Except.ok [65]) 1 4
        ⟨1, 0, 0, none, [], [], [], []⟩ =
      (⟨4, 3, 3, some 2, [], [⟨2, 3, [0], true⟩],
          [(utf8Go [65]).1, [10], [10]], [7, 2, 2, 2]⟩,
        StopReason.eosLoop) :=
  c2_eos_loop_behaviour ⟨2, fun _ => false⟩ (fun j => if j = 0 then 7 else 2)
    (fun _ _ => true) (fun _ _ => Except.ok [65]) 1 4 1 7 [65] []
    rfl rfl rfl rfl (by decide) rfl rfl
    (by show (utf8Go [65]).1 ≠ []; decide) rfl
    (by decide) (fun _ _ => rfl) (by decide)

end LlamaSpec
